import Mathlib

/-!
Shallow embedding of the two scripts in this repository:
`scripts/generate-all-tables.py` (case-conversion utilities and the manifest
reporter) and `scripts/get_company_schema_detailed.py` (schema fetch and
extraction).  Python strings are modelled as `String`; a function whose Python
body can raise an uncaught exception returns `Option` (`none` models the
exception).  All definitions are executable.
-/

/-- Characters kept by the strip step: the regex class `[a-zA-Z0-9]`. -/
def isAlnumAscii (c : Char) : Bool :=
  (65 ≤ c.toNat ∧ c.toNat ≤ 90) ∨ (97 ≤ c.toNat ∧ c.toNat ≤ 122) ∨
    (48 ≤ c.toNat ∧ c.toNat ≤ 57)

/-- Whitespace characters: the set matched by the regex whitespace class and
split on by `str.split()` with no arguments (CPython's Unicode whitespace
table: tab through carriage return, the file/group/record/unit separators,
space, next line, no-break space, ogham space mark, the en/em spaces,
line/paragraph separator, narrow no-break space, medium mathematical space,
ideographic space). -/
def isPySpace (c : Char) : Bool :=
  (9 ≤ c.toNat ∧ c.toNat ≤ 13) ∨ (28 ≤ c.toNat ∧ c.toNat ≤ 31) ∨
    c.toNat = 32 ∨ c.toNat = 133 ∨ c.toNat = 160 ∨ c.toNat = 5760 ∨
    (8192 ≤ c.toNat ∧ c.toNat ≤ 8202) ∨ c.toNat = 8232 ∨ c.toNat = 8233 ∨
    c.toNat = 8239 ∨ c.toNat = 8287 ∨ c.toNat = 12288

/-- One character of Python `str.lower`.  The tokens it is applied to consist
of ASCII alphanumerics only (they survived the strip step), on which Unicode
lowering coincides with this ASCII lowering. -/
def asciiLower (c : Char) : Char :=
  if 65 ≤ c.toNat ∧ c.toNat ≤ 90 then Char.ofNat (c.toNat + 32) else c

/-- One character of Python `str.upper`, ASCII range. -/
def asciiUpper (c : Char) : Char :=
  if 97 ≤ c.toNat ∧ c.toNat ≤ 122 then Char.ofNat (c.toNat - 32) else c

/-- The substitution `re.sub` of the complement class of
alphanumeric-or-whitespace by the empty string: keeps exactly the
alphanumeric and whitespace characters. -/
def pyStrip (l : List Char) : List Char :=
  l.filter fun c => isAlnumAscii c || isPySpace c

/-- Emit the pending (reversed) token if it is nonempty. -/
def flushTok (acc : List Char) : List (List Char) :=
  if acc = [] then [] else [acc.reverse]

/-- Worker for `pySplit`; `acc` holds the characters of the current token in
reverse order. -/
def splitAux : List Char → List Char → List (List Char)
  | [], acc => flushTok acc
  | c :: cs, acc =>
    if isPySpace c then flushTok acc ++ splitAux cs []
    else splitAux cs (c :: acc)

/-- Python `str.split()` with no arguments: split on runs of whitespace,
never producing empty tokens. -/
def pySplit (l : List Char) : List (List Char) :=
  splitAux l []

/-- Python `str.capitalize()`: first character uppercased, all remaining
characters lowercased.  The lowering of the tail is the documented behaviour
of `str.capitalize`, not an approximation. -/
def pyCapitalize : List Char → List Char
  | [] => []
  | c :: cs => asciiUpper c :: cs.map asciiLower

/-- The token list every conversion starts from: strip, then split. -/
def tokens (s : String) : List (List Char) :=
  pySplit (pyStrip s.data)

/-- Embedding of `to_camel_case` from `scripts/generate-all-tables.py`.
The Python body indexes `words[0]`, which raises `IndexError` when the token
list is empty; `none` models that exception. -/
def to_camel_case (s : String) : Option String :=
  match tokens s with
  | [] => none
  | w :: ws => some (String.mk (w.map asciiLower ++ (ws.map pyCapitalize).flatten))

/-- The expression `camel[0].upper() + camel[1:]`: uppercase the first
character, keep the rest. -/
def capitalizeFirst (s : String) : String :=
  match s.data with
  | [] => ""
  | c :: cs => String.mk (asciiUpper c :: cs)

/-- Embedding of `to_pascal_case`: the conditional expression
`camel[0].upper() + camel[1:] if camel else ""` applied to the result of
`to_camel_case`; an exception raised inside `to_camel_case` propagates. -/
def to_pascal_case (s : String) : Option String :=
  (to_camel_case s).map fun camel =>
    if camel = "" then "" else capitalizeFirst camel

/-- Python `"-".join`: concatenate with a single hyphen between elements. -/
def joinHyphen : List (List Char) → List Char
  | [] => []
  | [w] => w
  | w :: ws => w ++ '-' :: joinHyphen ws

/-- Embedding of `to_kebab_case`: strip, split, lowercase every token, join
with hyphens.  Total; the Python body cannot raise. -/
def to_kebab_case (s : String) : String :=
  String.mk (joinHyphen ((tokens s).map (List.map asciiLower)))

/-- Lowercase letter or digit: the character class of kebab-output tokens. -/
def isLowerAlnum (c : Char) : Bool :=
  (97 ≤ c.toNat ∧ c.toNat ≤ 122) ∨ (48 ≤ c.toNat ∧ c.toNat ≤ 57)

/-- One decoded table-schema object as consumed by the extractor.  The script
inspects only the result of `t.get("id")` (`none` models an absent key);
everything else in the object is opaque payload. -/
structure SchemaTable where
  id : Option String
  payload : String
deriving DecidableEq

/-- The decoded HTTP response to the metadata request: its status code and
the `tables` field of the decoded JSON body (`none` when the field is
absent). -/
structure HttpResponse where
  status : Nat
  tables : Option (List SchemaTable)
deriving DecidableEq

/-- Base identifier constant from `get_company_schema_detailed.py`. -/
def SYSTEM_CONFIG_BASE_ID : String := "appGtLbKhmNkkTLVL"

/-- Wanted identifier of the company table. -/
def COMPANY_TABLE_ID : String := "tbl82H6ezrakMSkV1"

/-- Wanted identifier of the division table. -/
def DIVISION_TABLE_ID : String := "tblLIRnxlCNotH2FY"

/-- Embedding of `get_all_tables`, as a function of the HTTP response it
receives.  Returns the table list together with a flag recording whether the
error diagnostic was printed. -/
def get_all_tables (resp : HttpResponse) : List SchemaTable × Bool :=
  if resp.status = 200 then (resp.tables.getD [], false) else ([], true)

/-- The `next(...)` generator scan: first element whose `id` field equals
`wanted`, if any. -/
def findTable (ts : List SchemaTable) (wanted : String) : Option SchemaTable :=
  ts.find? fun t => t.id = some wanted

/-- The JSON object written to `docs/company-table-schema-detailed.json`:
exactly two top-level keys; `none` serializes as `null`. -/
structure ExtractOutput where
  company : Option SchemaTable
  division : Option SchemaTable
deriving DecidableEq

/-- The extraction step: locate the company and the division schema. -/
def extract_tables (ts : List SchemaTable) : ExtractOutput :=
  { company := findTable ts COMPANY_TABLE_ID
    division := findTable ts DIVISION_TABLE_ID }

/-- The extractor pipeline as a function of the HTTP response: the output
object that is written to disk and whether the fetch-error diagnostic was
logged. -/
def run_extractor (resp : HttpResponse) : ExtractOutput × Bool :=
  (extract_tables (get_all_tables resp).1, (get_all_tables resp).2)

/-- One relationship entry of a table configuration. -/
structure Relationship where
  field : String
  table : String
  nameField : String
deriving DecidableEq

/-- One entry of the hard-coded `TABLES` configuration list. -/
structure TableConfig where
  name : String
  tableName : String
  entityName : String
  entityNamePlural : String
  routePath : String
  pagePath : String
  navName : String
  relationships : List Relationship
deriving DecidableEq

/-- The hard-coded configuration list, transcribed from
`scripts/generate-all-tables.py`. -/
def TABLES : List TableConfig :=
  [ { name := "Normalized Activities"
      tableName := "Normalized Activities"
      entityName := "Normalized Activity"
      entityNamePlural := "Normalized Activities"
      routePath := "normalized-activities"
      pagePath := "normalized-activities"
      navName := "Normalized Activities"
      relationships := [] },
    { name := "EF/Detailed G"
      tableName := "EF/Detailed G"
      entityName := "EF/Detailed G"
      entityNamePlural := "EF/Detailed G"
      routePath := "ef-detailed-g"
      pagePath := "ef-detailed-g"
      navName := "EF/Detailed G"
      relationships :=
        [ { field := "EF GWP", table := "EF GWP", nameField := "Name" },
          { field := "GHG TYPE", table := "GHG TYPE", nameField := "Name" },
          { field := "Std Emission factors", table := "Std Emission factors",
            nameField := "Name" } ] },
    { name := "Scope"
      tableName := "Scope"
      entityName := "Scope"
      entityNamePlural := "Scopes"
      routePath := "scope"
      pagePath := "scope"
      navName := "Scope"
      relationships := [] },
    { name := "scope & categorisation"
      tableName := "scope & categorisation"
      entityName := "Scope & Categorisation"
      entityNamePlural := "Scope & Categorisations"
      routePath := "scope-categorisation"
      pagePath := "scope-categorisation"
      navName := "Scope & Categorisation"
      relationships :=
        [ { field := "Scope", table := "Scope", nameField := "Name" } ] },
    { name := "Unit"
      tableName := "Unit"
      entityName := "Unit"
      entityNamePlural := "Units"
      routePath := "unit"
      pagePath := "unit"
      navName := "Unit"
      relationships := [] },
    { name := "Unit Conversion"
      tableName := "Unit Conversion"
      entityName := "Unit Conversion"
      entityNamePlural := "Unit Conversions"
      routePath := "unit-conversion"
      pagePath := "unit-conversion"
      navName := "Unit Conversion"
      relationships :=
        [ { field := "Activity Density", table := "Activity Density",
            nameField := "Name" } ] },
    { name := "Standard ECM catalog"
      tableName := "Standard ECM catalog"
      entityName := "Standard ECM Catalog"
      entityNamePlural := "Standard ECM Catalogs"
      routePath := "standard-ecm-catalog"
      pagePath := "standard-ecm-catalog"
      navName := "Standard ECM Catalog"
      relationships :=
        [ { field := "Standard ECM Classification",
            table := "Standard ECM Classification", nameField := "Name" } ] },
    { name := "Standard ECM Classification"
      tableName := "Standard ECM Classification"
      entityName := "Standard ECM Classification"
      entityNamePlural := "Standard ECM Classifications"
      routePath := "standard-ecm-classification"
      pagePath := "standard-ecm-classification"
      navName := "Standard ECM Classification"
      relationships :=
        [ { field := "Standard ECM catalog", table := "Standard ECM catalog",
            nameField := "Name" } ] } ]

/-- The lines printed for one descriptor by the loop at the bottom of
`generate-all-tables.py`: header, the eight artifact lines, the relationship
count when the list is truthy (nonempty), and the final blank print.  `none`
models the exception that `to_camel_case` would raise. -/
def manifestLines (t : TableConfig) : Option (List String) :=
  match to_camel_case t.name, to_pascal_case t.name with
  | some camel, some pascal =>
    let kebab := t.routePath
    some ( [ "✅ " ++ t.name ++ ":",
             "   - Types: " ++ pascal ++ ".ts",
             "   - Service: " ++ pascal ++ "AirtableService.ts",
             "   - Controller: " ++ pascal ++ "Controller.ts",
             "   - Routes: " ++ camel ++ "Routes.ts",
             "   - API Client: " ++ camel ++ ".ts",
             "   - Config: " ++ camel ++ "Config.tsx",
             "   - Page: " ++ kebab ++ "/page.tsx",
             "   - Layout: " ++ kebab ++ "/layout.tsx" ]
           ++ (if t.relationships = [] then []
               else [ "   - Relationships: " ++ toString t.relationships.length ])
           ++ [ "" ])
  | _, _ => none

/-- The per-descriptor line list the specification prescribes, as a function
of the derived camel and pascal forms: the fixed artifact order, the route
segment taken verbatim from the descriptor, and the conditional
relationship-count line. -/
def expectedLines (t : TableConfig) (camel pascal : String) : List String :=
  [ "✅ " ++ t.name ++ ":",
    "   - Types: " ++ pascal ++ ".ts",
    "   - Service: " ++ pascal ++ "AirtableService.ts",
    "   - Controller: " ++ pascal ++ "Controller.ts",
    "   - Routes: " ++ camel ++ "Routes.ts",
    "   - API Client: " ++ camel ++ ".ts",
    "   - Config: " ++ camel ++ "Config.tsx",
    "   - Page: " ++ t.routePath ++ "/page.tsx",
    "   - Layout: " ++ t.routePath ++ "/layout.tsx" ]
  ++ (if t.relationships = [] then []
      else [ "   - Relationships: " ++ toString t.relationships.length ])
  ++ [ "" ]

/-- The second entry of the configuration list (the EF/Detailed G table). -/
def efTable : TableConfig := TABLES.get ⟨1, by decide⟩

/-- C6: `to_camel_case` applied to the string used as the spec's worked
example returns the camel form with Python capitalize semantics (the token
ECM becomes Ecm). -/
theorem to_camel_case_standard_ecm :
    to_camel_case "Standard ECM catalog" = some "standardEcmCatalog" := by
  decide

/-- C3 (counterexample): the spec example is wrong on the code.  The slash is
stripped before splitting, so EF and Detailed merge into a single token and
no hyphen is produced between them. -/
theorem to_kebab_case_ef_counterexample :
    to_kebab_case "EF/Detailed G" ≠ "ef-detailed-g" := by
  decide

/-- C3 (amended): the value `to_kebab_case` actually returns on the spec's
example input. -/
theorem to_kebab_case_ef_amended :
    to_kebab_case "EF/Detailed G" = "efdetailed-g" := by
  decide

/-- C1: the code violates the claim.  On every input that strips and splits
to zero tokens, `words[0]` raises `IndexError` (modelled by `none`) instead
of returning the empty string; `to_pascal_case` inherits the exception on the
empty string before its own emptiness guard can fire. -/
theorem to_camel_case_zero_tokens_raises :
    to_camel_case "" = none ∧ to_camel_case "  \t " = none ∧
      to_camel_case "/&@!" = none ∧ to_pascal_case "" = none := by
  decide

/-- C2 (counterexample): for the two-token input with second token CD, the
claim (casing of the tail of each later token preserved) predicts abCD, but
Python's `str.capitalize` lowercases the tail, giving abCd. -/
theorem to_camel_case_preserve_counterexample :
    to_camel_case "ab CD" = some "abCd" ∧
      to_camel_case "ab CD" ≠ some "abCD" := by
  decide

/-- Packing a scalar value below the surrogate range and unpacking it is the
identity. -/
theorem toNat_ofNat_of_valid {n : Nat} (h : n < 55296) :
    (Char.ofNat n).toNat = n := by
  rw [Char.ofNat, dif_pos (Or.inl h)]
  rfl

/-- Unfolding of the alphanumeric test into arithmetic on the code point. -/
theorem isAlnumAscii_toNat {c : Char} (h : isAlnumAscii c = true) :
    (65 ≤ c.toNat ∧ c.toNat ≤ 90) ∨ (97 ≤ c.toNat ∧ c.toNat ≤ 122) ∨
      (48 ≤ c.toNat ∧ c.toNat ≤ 57) := by
  simpa [isAlnumAscii] using h

/-- The kept alphanumeric characters are never whitespace. -/
theorem not_space_of_alnum {c : Char} (h : isAlnumAscii c = true) :
    isPySpace c = false := by
  rcases isAlnumAscii_toNat h with h1 | h1 | h1 <;>
    · simp only [isPySpace, decide_eq_false_iff_not]
      omega

/-- Lowering an alphanumeric character yields a lowercase letter or digit. -/
theorem isLowerAlnum_asciiLower {c : Char} (h : isAlnumAscii c = true) :
    isLowerAlnum (asciiLower c) = true := by
  rcases isAlnumAscii_toNat h with h1 | h1 | h1
  · rw [asciiLower, if_pos h1]
    have hv : (Char.ofNat (c.toNat + 32)).toNat = c.toNat + 32 :=
      toNat_ofNat_of_valid (by omega)
    simp only [isLowerAlnum, hv, decide_eq_true_eq]
    omega
  · rw [asciiLower, if_neg (by omega)]
    simp only [isLowerAlnum, decide_eq_true_eq]
    omega
  · rw [asciiLower, if_neg (by omega)]
    simp only [isLowerAlnum, decide_eq_true_eq]
    omega

/-- A lowercase letter or digit is not the hyphen character. -/
theorem ne_hyphen_of_isLowerAlnum {c : Char} (h : isLowerAlnum c = true) :
    c ≠ '-' := by
  intro hc
  subst hc
  exact absurd h (by decide)

/-- Tokens emitted by the flush step are nonempty and keep the character
property of the accumulator. -/
theorem flushTok_sound {p : Char → Prop} {acc : List Char}
    (hacc : ∀ c ∈ acc, p c) :
    ∀ w ∈ flushTok acc, w ≠ [] ∧ ∀ c ∈ w, p c := by
  intro w hw
  unfold flushTok at hw
  split at hw
  · simp at hw
  · next hne =>
    simp only [List.mem_singleton] at hw
    subst hw
    refine ⟨by simpa using hne, ?_⟩
    intro c hc
    exact hacc c (List.mem_reverse.mp hc)

/-- The flush step emits nothing exactly when the accumulator is empty. -/
theorem flushTok_eq_nil {acc : List Char} : flushTok acc = [] ↔ acc = [] := by
  unfold flushTok
  split <;> simp_all

/-- Every token produced by the split worker is nonempty, consists of
characters of the input (or pending accumulator), and contains no whitespace
character. -/
theorem splitAux_sound {p : Char → Prop} :
    ∀ (l acc : List Char), (∀ c ∈ l, p c) →
      (∀ c ∈ acc, p c ∧ isPySpace c = false) →
      ∀ w ∈ splitAux l acc, w ≠ [] ∧ ∀ c ∈ w, p c ∧ isPySpace c = false := by
  intro l
  induction l with
  | nil =>
    intro acc _ hacc w hw
    exact flushTok_sound hacc w hw
  | cons c cs ih =>
    intro acc hl hacc w hw
    simp only [splitAux] at hw
    by_cases hc : isPySpace c = true
    · rw [if_pos hc] at hw
      rcases List.mem_append.mp hw with h | h
      · exact flushTok_sound hacc w h
      · exact ih [] (fun d hd => hl d (List.mem_cons_of_mem _ hd)) (by simp) w h
    · rw [if_neg hc] at hw
      refine ih (c :: acc) ?_ ?_ w hw
      · intro d hd
        exact hl d (List.mem_cons_of_mem _ hd)
      · intro d hd
        rcases List.mem_cons.mp hd with rfl | hd2
        · exact ⟨hl d (List.mem_cons_self _ _), by simpa using hc⟩
        · exact hacc d hd2

/-- The split worker returns no tokens exactly when nothing is pending and
every remaining character is whitespace. -/
theorem splitAux_eq_nil :
    ∀ (l acc : List Char),
      splitAux l acc = [] ↔ acc = [] ∧ ∀ c ∈ l, isPySpace c = true := by
  intro l
  induction l with
  | nil =>
    intro acc
    simp only [splitAux, flushTok_eq_nil, List.not_mem_nil]
    simp
  | cons c cs ih =>
    intro acc
    simp only [splitAux]
    by_cases hc : isPySpace c = true
    · rw [if_pos hc, List.append_eq_nil, flushTok_eq_nil, ih []]
      constructor
      · rintro ⟨ha, -, hall⟩
        refine ⟨ha, ?_⟩
        intro d hd
        rcases List.mem_cons.mp hd with rfl | hd2
        · exact hc
        · exact hall d hd2
      · rintro ⟨ha, hall⟩
        exact ⟨ha, rfl, fun d hd => hall d (List.mem_cons_of_mem _ hd)⟩
    · rw [if_neg hc, ih (c :: acc)]
      constructor
      · rintro ⟨h, -⟩
        exact absurd h (List.cons_ne_nil _ _)
      · rintro ⟨-, hall⟩
        exact absurd (hall c (List.mem_cons_self _ _)) (by simpa using hc)

/-- Every token of the stripped-and-split string is nonempty and purely
ASCII-alphanumeric. -/
theorem tokens_sound (s : String) :
    ∀ w ∈ tokens s, w ≠ [] ∧ ∀ c ∈ w, isAlnumAscii c = true := by
  intro w hw
  have hl : ∀ c ∈ pyStrip s.data, (isAlnumAscii c || isPySpace c) = true := by
    intro c hc
    exact (List.mem_filter.mp hc).2
  have hw2 : w ∈ splitAux (pyStrip s.data) [] := hw
  obtain ⟨h1, h2⟩ := splitAux_sound (pyStrip s.data) [] hl (by simp) w hw2
  refine ⟨h1, ?_⟩
  intro c hc
  obtain ⟨hp, hsp⟩ := h2 c hc
  rcases Bool.or_eq_true_iff.mp hp with h | h
  · exact h
  · rw [h] at hsp
    cases hsp

/-- The token list is empty exactly when the input has no alphanumeric
character. -/
theorem tokens_eq_nil_iff (s : String) :
    tokens s = [] ↔ ∀ c ∈ s.data, isAlnumAscii c = false := by
  have h := splitAux_eq_nil (pyStrip s.data) []
  constructor
  · intro ht c hc
    obtain ⟨-, hall⟩ := h.mp ht
    by_contra hb
    have halnum : isAlnumAscii c = true := by
      cases hx : isAlnumAscii c
      · exact absurd hx hb
      · rfl
    have hcin : c ∈ pyStrip s.data :=
      List.mem_filter.mpr ⟨hc, by simp [halnum]⟩
    have := hall c hcin
    rw [not_space_of_alnum halnum] at this
    cases this
  · intro hna
    refine h.mpr ⟨rfl, ?_⟩
    intro c hc
    obtain ⟨hcs, hkeep⟩ := List.mem_filter.mp hc
    rcases Bool.or_eq_true_iff.mp hkeep with hx | hx
    · rw [hna c hcs] at hx
      cases hx
    · exact hx

/-- The hyphen join of nonempty pieces is empty exactly when there are no
pieces. -/
theorem joinHyphen_eq_nil {ws : List (List Char)} (h : ∀ w ∈ ws, w ≠ []) :
    joinHyphen ws = [] ↔ ws = [] := by
  cases ws with
  | nil => simp [joinHyphen]
  | cons w ws =>
    cases ws with
    | nil =>
      simp only [joinHyphen]
      constructor
      · intro hw
        exact absurd hw (h w (List.mem_cons_self _ _))
      · intro hh
        cases hh
    | cons v vs =>
      simp only [joinHyphen, List.append_eq_nil]
      constructor
      · rintro ⟨-, hcons⟩
        cases hcons
      · intro hh
        cases hh

/-- Every character of the hyphen join is a hyphen or a character of one of
the pieces. -/
theorem joinHyphen_mem :
    ∀ (ws : List (List Char)) (c : Char), c ∈ joinHyphen ws →
      c = '-' ∨ ∃ w ∈ ws, c ∈ w := by
  intro ws
  induction ws with
  | nil =>
    intro c hc
    simp [joinHyphen] at hc
  | cons w ws ih =>
    cases ws with
    | nil =>
      intro c hc
      right
      exact ⟨w, List.mem_cons_self _ _, by simpa [joinHyphen] using hc⟩
    | cons v vs =>
      intro c hc
      simp only [joinHyphen] at hc
      rcases List.mem_append.mp hc with h | h
      · right
        exact ⟨w, List.mem_cons_self _ _, h⟩
      · rcases List.mem_cons.mp h with rfl | h2
        · left
          rfl
        · rcases ih c h2 with h3 | ⟨u, hu, hcu⟩
          · left
            exact h3
          · right
            exact ⟨u, List.mem_cons_of_mem _ hu, hcu⟩

/-- The first character of the hyphen join of nonempty pieces belongs to a
piece. -/
theorem joinHyphen_head {ws : List (List Char)} (hne : ∀ w ∈ ws, w ≠ [])
    {c : Char} (hc : (joinHyphen ws).head? = some c) : ∃ w ∈ ws, c ∈ w := by
  cases ws with
  | nil => simp [joinHyphen] at hc
  | cons w ws =>
    have hw := hne w (List.mem_cons_self _ _)
    have hhead : (joinHyphen (w :: ws)).head? = w.head? := by
      cases ws with
      | nil => rfl
      | cons v vs =>
        simp only [joinHyphen]
        cases w with
        | nil => exact absurd rfl hw
        | cons a as => rfl
    rw [hhead] at hc
    cases w with
    | nil => exact absurd rfl hw
    | cons a as =>
      simp only [List.head?_cons, Option.some.injEq] at hc
      exact ⟨a :: as, List.mem_cons_self _ _, hc ▸ List.mem_cons_self _ _⟩

/-- The last character of the hyphen join of nonempty pieces belongs to a
piece. -/
theorem joinHyphen_last :
    ∀ (ws : List (List Char)), (∀ w ∈ ws, w ≠ []) → ∀ (c : Char),
      (joinHyphen ws).getLast? = some c → ∃ w ∈ ws, c ∈ w := by
  intro ws
  induction ws with
  | nil =>
    intro _ c hc
    simp [joinHyphen] at hc
  | cons w ws ih =>
    intro hne c hc
    cases ws with
    | nil =>
      simp only [joinHyphen] at hc
      exact ⟨w, List.mem_cons_self _ _, List.mem_of_getLast?_eq_some hc⟩
    | cons v vs =>
      simp only [joinHyphen] at hc
      have hJ : joinHyphen (v :: vs) ≠ [] := by
        rw [Ne, joinHyphen_eq_nil (fun u hu => hne u (List.mem_cons_of_mem _ hu))]
        exact List.cons_ne_nil _ _
      rw [List.getLast?_append] at hc
      have h2 : ('-' :: joinHyphen (v :: vs)).getLast? =
          (joinHyphen (v :: vs)).getLast? := by
        rw [show ('-' :: joinHyphen (v :: vs)) =
              ['-'] ++ joinHyphen (v :: vs) from rfl,
          List.getLast?_append]
        cases hJl : (joinHyphen (v :: vs)).getLast? with
        | none => exact absurd (List.getLast?_eq_none_iff.mp hJl) hJ
        | some d => rfl
      rw [h2] at hc
      cases hJl : (joinHyphen (v :: vs)).getLast? with
      | none => exact absurd (List.getLast?_eq_none_iff.mp hJl) hJ
      | some d =>
        rw [hJl] at hc
        simp only [Option.or_some, Option.some.injEq] at hc
        obtain ⟨u, hu, hcu⟩ :=
          ih (fun u hu => hne u (List.mem_cons_of_mem _ hu)) d hJl
        exact ⟨u, List.mem_cons_of_mem _ hu, hc ▸ hcu⟩

/-- A list without hyphens has no two adjacent hyphens. -/
theorem chain_hyphen_of_all_ne :
    ∀ (l : List Char), (∀ c ∈ l, c ≠ '-') →
      List.Chain' (fun a b => ¬(a = '-' ∧ b = '-')) l := by
  intro l
  induction l with
  | nil =>
    intro
    simp
  | cons a l ih =>
    intro h
    rw [List.chain'_cons']
    refine ⟨?_, ih (fun c hc => h c (List.mem_cons_of_mem _ hc))⟩
    intro y _ hcon
    exact h a (List.mem_cons_self _ _) hcon.1

/-- The hyphen join of nonempty hyphen-free pieces never contains two
adjacent hyphens. -/
theorem joinHyphen_chain :
    ∀ (ws : List (List Char)), (∀ w ∈ ws, w ≠ []) →
      (∀ w ∈ ws, ∀ c ∈ w, c ≠ '-') →
      List.Chain' (fun a b => ¬(a = '-' ∧ b = '-')) (joinHyphen ws) := by
  intro ws
  induction ws with
  | nil =>
    intro _ _
    simp [joinHyphen]
  | cons w ws ih =>
    intro hne hh
    cases ws with
    | nil =>
      simp only [joinHyphen]
      exact chain_hyphen_of_all_ne w (hh w (List.mem_cons_self _ _))
    | cons v vs =>
      simp only [joinHyphen]
      rw [List.chain'_append]
      refine ⟨chain_hyphen_of_all_ne w (hh w (List.mem_cons_self _ _)), ?_, ?_⟩
      · rw [List.chain'_cons']
        constructor
        · intro y hy hcon
          obtain ⟨u, hu, hyu⟩ := joinHyphen_head
            (fun u hu => hne u (List.mem_cons_of_mem _ hu))
            (Option.mem_def.mp hy)
          exact hh u (List.mem_cons_of_mem _ hu) y hyu hcon.2
        · exact ih (fun u hu => hne u (List.mem_cons_of_mem _ hu))
            (fun u hu => hh u (List.mem_cons_of_mem _ hu))
      · intro x hx y hy hcon
        have hxw : x ∈ w := List.mem_of_getLast?_eq_some (Option.mem_def.mp hx)
        exact hh w (List.mem_cons_self _ _) x hxw hcon.1

/-- The kebab form is the empty string exactly when the input has no
alphanumeric character. -/
theorem to_kebab_case_eq_empty_iff (s : String) :
    to_kebab_case s = "" ↔ ∀ c ∈ s.data, isAlnumAscii c = false := by
  have hne : ∀ w ∈ (tokens s).map (List.map asciiLower), w ≠ [] := by
    intro w hw
    obtain ⟨u, hu, rfl⟩ := List.mem_map.mp hw
    have := (tokens_sound s u hu).1
    simpa using this
  rw [show to_kebab_case s = "" ↔
        joinHyphen ((tokens s).map (List.map asciiLower)) = [] from
      ⟨fun h => congrArg String.data h, fun h => congrArg String.mk h⟩]
  rw [joinHyphen_eq_nil hne, List.map_eq_nil_iff]
  exact tokens_eq_nil_iff s

/-- C10: `to_kebab_case` is total (it is a plain function, modelling that the
Python body cannot raise), and its result is built from lowercase
alphanumeric characters and single separating hyphens: every character is a
lowercase letter, a digit, or a hyphen; the first and last characters are
never hyphens; no two hyphens are adjacent; and the result is empty exactly
when the input contains no alphanumeric character. -/
theorem to_kebab_case_invariant (s : String) :
    (∀ c ∈ (to_kebab_case s).data, isLowerAlnum c = true ∨ c = '-') ∧
    (∀ c, (to_kebab_case s).data.head? = some c → isLowerAlnum c = true) ∧
    (∀ c, (to_kebab_case s).data.getLast? = some c → isLowerAlnum c = true) ∧
    List.Chain' (fun a b => ¬(a = '-' ∧ b = '-')) (to_kebab_case s).data ∧
    (to_kebab_case s = "" ↔ ∀ c ∈ s.data, isAlnumAscii c = false) := by
  have hdata : (to_kebab_case s).data =
      joinHyphen ((tokens s).map (List.map asciiLower)) := rfl
  have hne : ∀ w ∈ (tokens s).map (List.map asciiLower), w ≠ [] := by
    intro w hw
    obtain ⟨u, hu, rfl⟩ := List.mem_map.mp hw
    simpa using (tokens_sound s u hu).1
  have hchars : ∀ w ∈ (tokens s).map (List.map asciiLower),
      ∀ c ∈ w, isLowerAlnum c = true := by
    intro w hw c hc
    obtain ⟨u, hu, rfl⟩ := List.mem_map.mp hw
    obtain ⟨d, hd, rfl⟩ := List.mem_map.mp hc
    exact isLowerAlnum_asciiLower ((tokens_sound s u hu).2 d hd)
  have hnh : ∀ w ∈ (tokens s).map (List.map asciiLower), ∀ c ∈ w, c ≠ '-' := by
    intro w hw c hc
    exact ne_hyphen_of_isLowerAlnum (hchars w hw c hc)
  refine ⟨?_, ?_, ?_, ?_, to_kebab_case_eq_empty_iff s⟩
  · intro c hc
    rw [hdata] at hc
    rcases joinHyphen_mem _ c hc with h | ⟨w, hw, hcw⟩
    · right
      exact h
    · left
      exact hchars w hw c hcw
  · intro c hc
    rw [hdata] at hc
    obtain ⟨w, hw, hcw⟩ := joinHyphen_head hne hc
    exact hchars w hw c hcw
  · intro c hc
    rw [hdata] at hc
    obtain ⟨w, hw, hcw⟩ := joinHyphen_last _ hne c hc
    exact hchars w hw c hcw
  · rw [hdata]
    exact joinHyphen_chain _ hne hnh

/-- Witness for C10 at a concrete input: the empty-output direction applied
to a string with no alphanumeric characters. -/
theorem to_kebab_case_invariant_witness : to_kebab_case "/@! " = "" :=
  (to_kebab_case_invariant "/@! ").2.2.2.2.mpr (by decide)

/-- C2 (amended): on every input with at least two tokens (the claim's
scope), the first token is fully lowercased and every subsequent token is
processed by Python capitalize semantics: first character uppercased and the
remaining characters lowercased, all concatenated with no separator. -/
theorem to_camel_case_multitoken (s : String) (w : List Char)
    (ws : List (List Char)) (h : tokens s = w :: ws) (_hws : ws ≠ []) :
    to_camel_case s =
      some (String.mk (w.map asciiLower ++ (ws.map pyCapitalize).flatten)) := by
  rw [to_camel_case, h]

/-- Witness for the amended C2 at the counterexample input. -/
theorem to_camel_case_multitoken_witness : to_camel_case "ab CD" = some "abCd" := by
  have h := to_camel_case_multitoken "ab CD" [ 'a', 'b' ] [ [ 'C', 'D' ] ]
    (by decide) (by decide)
  rw [h]
  decide

/-- The camel form, when it is returned at all, is never the empty string:
it starts with the characters of a nonempty first token. -/
theorem to_camel_case_ne_empty {s c : String}
    (h : to_camel_case s = some c) : c ≠ "" := by
  rw [to_camel_case] at h
  cases heq : tokens s with
  | nil =>
    rw [heq] at h
    cases h
  | cons w ws =>
    rw [heq] at h
    have hw : w ≠ [] := (tokens_sound s w (heq ▸ List.mem_cons_self _ _)).1
    have hc : c = String.mk (w.map asciiLower ++ (ws.map pyCapitalize).flatten) :=
      (Option.some.inj h).symm
    intro hemp
    rw [hc] at hemp
    have hdata := congrArg String.data hemp
    simp only [List.append_eq_nil, List.map_eq_nil_iff] at hdata
    exact hw hdata.1

/-- C5: the relational half of the claim holds — whenever `to_camel_case`
returns a value, `to_pascal_case` returns that value with its first character
uppercased — but the emptiness half is a code bug: on the empty input both
functions raise (the guard in `to_pascal_case` sits after the call that
raises), modelled by `none`. -/
theorem to_pascal_case_relation :
    (∀ (s c : String), to_camel_case s = some c →
      c ≠ "" ∧ to_pascal_case s = some (capitalizeFirst c)) ∧
    to_pascal_case "" = none := by
  constructor
  · intro s c h
    have hne := to_camel_case_ne_empty h
    refine ⟨hne, ?_⟩
    rw [to_pascal_case, h, Option.map_some', if_neg hne]
  · decide

/-- Witness for C5's relational half at a concrete input. -/
theorem to_pascal_case_relation_witness : to_pascal_case "ab cd" = some "AbCd" := by
  have h := (to_pascal_case_relation.1 "ab cd" "abCd" (by decide)).2
  rw [h]
  decide

/-- C4 (counterexample): a 201 response carrying a nonempty tables field is
in the 2xx success range, yet the code takes the failure branch — it logs and
returns the empty list instead of returning the tables field. -/
theorem get_all_tables_201_counterexample :
    get_all_tables ⟨201, some [ ⟨some "tblX", "x"⟩ ]⟩ = ([], true) ∧
      get_all_tables ⟨201, some [ ⟨some "tblX", "x"⟩ ]⟩ ≠
        ([ ⟨some "tblX", "x"⟩ ], false) := by
  decide

/-- C4 (amended): the success branch fires only on status exactly 200, where
the tables field (defaulting to the empty list when absent) is returned
without logging; every other status, 2xx or not, logs and yields the empty
list. -/
theorem get_all_tables_amended (resp : HttpResponse) :
    (resp.status = 200 → get_all_tables resp = (resp.tables.getD [], false)) ∧
    (resp.status ≠ 200 → get_all_tables resp = ([], true)) := by
  constructor <;> intro h <;> simp [get_all_tables, h]

/-- Witness for the amended C4 at a 200 and at a 404 response. -/
theorem get_all_tables_amended_witness :
    get_all_tables ⟨200, some [ ⟨some "tblX", "x"⟩ ]⟩ =
        ([ ⟨some "tblX", "x"⟩ ], false) ∧
      get_all_tables ⟨404, some [ ⟨some "tblX", "x"⟩ ]⟩ = ([], true) := by
  constructor
  · exact ((get_all_tables_amended ⟨200, some [ ⟨some "tblX", "x"⟩ ]⟩).1
      rfl).trans (by decide)
  · exact (get_all_tables_amended ⟨404, some [ ⟨some "tblX", "x"⟩ ]⟩).2
      (by decide)

/-- A failed lookup means no element carries the wanted identifier. -/
theorem findTable_eq_none_iff (ts : List SchemaTable) (wanted : String) :
    findTable ts wanted = none ↔ ∀ t ∈ ts, t.id ≠ some wanted := by
  rw [findTable, List.find?_eq_none]
  constructor
  · intro h t ht
    simpa using h t ht
  · intro h t ht
    simpa using h t ht

/-- A successful lookup returns a matching element that is the first match in
list order: everything before it in the list does not match. -/
theorem findTable_some (ts : List SchemaTable) (wanted : String)
    (t : SchemaTable) (h : findTable ts wanted = some t) :
    t.id = some wanted ∧
      ∃ l1 l2, ts = l1 ++ t :: l2 ∧ ∀ u ∈ l1, u.id ≠ some wanted := by
  rw [findTable, List.find?_eq_some] at h
  obtain ⟨hp, l1, l2, rfl, hall⟩ := h
  refine ⟨by simpa using hp, l1, l2, rfl, ?_⟩
  intro u hu
  simpa using hall u hu

/-- When the wanted identifier occurs and all its occurrences are the same
object, the lookup returns that object, wherever it sits in the list. -/
theorem findTable_unique (ts : List SchemaTable) (wanted : String)
    (t : SchemaTable) (ht : t ∈ ts) (hid : t.id = some wanted)
    (huniq : ∀ u ∈ ts, u.id = some wanted → u = t) :
    findTable ts wanted = some t := by
  have hsome : (findTable ts wanted).isSome := by
    rw [findTable, List.find?_isSome]
    exact ⟨t, ht, by simpa using hid⟩
  obtain ⟨u, hu⟩ := Option.isSome_iff_exists.mp hsome
  obtain ⟨huid, l1, l2, heq, -⟩ := findTable_some ts wanted u hu
  have humem : u ∈ ts := by
    rw [heq]
    exact List.mem_append_right _ (List.mem_cons_self _ _)
  rw [hu, huniq u humem huid]

/-- C8: for each of the two fixed wanted identifiers the extraction step is a
first-match linear scan — a returned object matches and everything earlier in
the list does not match; the lookup fails exactly when nothing matches; and
when the match is unique, the object found does not depend on its position in
the list. -/
theorem extract_tables_first_match (ts : List SchemaTable) :
    ((extract_tables ts).company = none ↔
        ∀ t ∈ ts, t.id ≠ some COMPANY_TABLE_ID) ∧
    (∀ t, (extract_tables ts).company = some t →
        t.id = some COMPANY_TABLE_ID ∧
          ∃ l1 l2, ts = l1 ++ t :: l2 ∧ ∀ u ∈ l1, u.id ≠ some COMPANY_TABLE_ID) ∧
    (∀ t ∈ ts, t.id = some COMPANY_TABLE_ID →
        (∀ u ∈ ts, u.id = some COMPANY_TABLE_ID → u = t) →
        (extract_tables ts).company = some t) ∧
    ((extract_tables ts).division = none ↔
        ∀ t ∈ ts, t.id ≠ some DIVISION_TABLE_ID) ∧
    (∀ t, (extract_tables ts).division = some t →
        t.id = some DIVISION_TABLE_ID ∧
          ∃ l1 l2, ts = l1 ++ t :: l2 ∧ ∀ u ∈ l1, u.id ≠ some DIVISION_TABLE_ID) ∧
    (∀ t ∈ ts, t.id = some DIVISION_TABLE_ID →
        (∀ u ∈ ts, u.id = some DIVISION_TABLE_ID → u = t) →
        (extract_tables ts).division = some t) :=
  ⟨findTable_eq_none_iff ts COMPANY_TABLE_ID,
   fun t h => findTable_some ts COMPANY_TABLE_ID t h,
   fun t ht hid huniq => findTable_unique ts COMPANY_TABLE_ID t ht hid huniq,
   findTable_eq_none_iff ts DIVISION_TABLE_ID,
   fun t h => findTable_some ts DIVISION_TABLE_ID t h,
   fun t ht hid huniq => findTable_unique ts DIVISION_TABLE_ID t ht hid huniq⟩

/-- Witness for C8: the company record is found even though it is the last
element of the list, behind a non-matching one. -/
theorem extract_tables_first_match_witness :
    (extract_tables [ ⟨some "tblOther", "b"⟩,
        ⟨some "tbl82H6ezrakMSkV1", "a"⟩ ]).company =
      some ⟨some "tbl82H6ezrakMSkV1", "a"⟩ := by
  refine (extract_tables_first_match _).2.2.1 _ ?_ ?_ ?_
  · decide
  · decide
  · decide

/-- C9: whenever nothing in the fetched list matches the company identifier
and nothing matches the division identifier — in particular after a failed
fetch, which yields the empty list — the file written holds exactly the two
keys with null values, and the diagnostic is logged exactly when the fetch
failed, so the two situations differ only in the log. -/
theorem run_extractor_no_match (resp : HttpResponse)
    (hc : ∀ t ∈ (get_all_tables resp).1, t.id ≠ some COMPANY_TABLE_ID)
    (hd : ∀ t ∈ (get_all_tables resp).1, t.id ≠ some DIVISION_TABLE_ID) :
    (run_extractor resp).1 = ⟨none, none⟩ ∧
      ((run_extractor resp).2 = true ↔ resp.status ≠ 200) := by
  constructor
  · show extract_tables (get_all_tables resp).1 = ⟨none, none⟩
    have h1 := (findTable_eq_none_iff (get_all_tables resp).1
      COMPANY_TABLE_ID).mpr hc
    have h2 := (findTable_eq_none_iff (get_all_tables resp).1
      DIVISION_TABLE_ID).mpr hd
    rw [extract_tables, h1, h2]
  · by_cases h : resp.status = 200
    · simp [run_extractor, get_all_tables, h]
    · simp [run_extractor, get_all_tables, h]

/-- Witness for C9 in the failure case: a 404 response whose body even
contains a matching table, which is discarded; the output is the double-null
object and the diagnostic is logged. -/
theorem run_extractor_no_match_witness :
    (run_extractor ⟨404, some [ ⟨some "tbl82H6ezrakMSkV1", "x"⟩ ]⟩).1 =
        ⟨none, none⟩ ∧
      (run_extractor ⟨404, some [ ⟨some "tbl82H6ezrakMSkV1", "x"⟩ ]⟩).2 = true := by
  have h := run_extractor_no_match ⟨404, some [ ⟨some "tbl82H6ezrakMSkV1", "x"⟩ ]⟩
    (by decide) (by decide)
  exact ⟨h.1, h.2.mpr (by decide)⟩

/-- C7: for every descriptor of the fixed list both case conversions succeed,
and the printed block is exactly the prescribed shape: the artifact lines in
the fixed order with the route segment taken verbatim from the descriptor's
`routePath`, a relationship-count line stating the exact list length if and
only if the relationships list is nonempty, and the closing blank line.  The
whole report processes the descriptors in input list order and completes
without an exception. -/
theorem manifest_report_shape :
    (∀ t ∈ TABLES, ∃ c p, to_camel_case t.name = some c ∧
        to_pascal_case t.name = some p ∧
        manifestLines t = some (expectedLines t c p)) ∧
    (TABLES.mapM manifestLines).isSome := by
  constructor
  · intro t ht
    fin_cases ht <;> exact ⟨_, _, rfl, rfl, rfl⟩
  · decide

/-- Witness for C7 at the second descriptor (EF/Detailed G, the one with
three relationships): its block has the prescribed shape, including the
relationship-count line. -/
theorem manifest_report_shape_witness :
    manifestLines efTable =
      some (expectedLines efTable "efdetailedG" "EfdetailedG") := by
  obtain ⟨c, p, hc, hp, hm⟩ := manifest_report_shape.1 efTable (by decide)
  have hc2 : to_camel_case efTable.name = some "efdetailedG" := by decide
  have hp2 : to_pascal_case efTable.name = some "EfdetailedG" := by decide
  have hcc : c = "efdetailedG" := Option.some.inj (hc.symm.trans hc2)
  have hpp : p = "EfdetailedG" := Option.some.inj (hp.symm.trans hp2)
  rw [hcc, hpp] at hm
  exact hm
